import Mathlib

set_option maxRecDepth 20000

/- Shallow embedding of the ip-analyzer core (src/ip_analyzer.cc).
   uint8_t/uint32_t/uint64_t values are modelled as Nat with explicit
   `% 2 ^ w` whereever wrap-around can occur; code that throws is modelled
   with `Except String`. -/

/-- `IPv4Address`: the `std::array<uint8_t, 4> octets_`, big-endian. -/
structure IPv4Address where
  o0 : Nat
  o1 : Nat
  o2 : Nat
  o3 : Nat
deriving DecidableEq, Repr

/-- All four stored octet values fit in a `uint8_t`. -/
def IPv4Address.Valid (a : IPv4Address) : Prop :=
  a.o0 < 256 ∧ a.o1 < 256 ∧ a.o2 < 256 ∧ a.o3 < 256

instance (a : IPv4Address) : Decidable a.Valid := by
  unfold IPv4Address.Valid; infer_instance

/-- C-locale `isspace`, the characters `std::stoi` skips: space, \t, \n, \v, \f, \r. -/
def isSpaceC (c : Char) : Bool := c.toNat = 32 || (9 ≤ c.toNat && c.toNat ≤ 13)

/-- Value of the decimal digit run consumed by `std::stoi`. -/
def digitsToNat (ds : List Char) : Nat := ds.foldl (fun a c => a * 10 + (c.toNat - 48)) 0

/-- Model of `std::stoi` (base 10): skip leading whitespace, optional sign,
    then at least one decimal digit; trailing characters are ignored.
    Returns `none` when no conversion is possible (`std::invalid_argument`)
    or the value does not fit in `int` (`std::out_of_range`); either way the
    enclosing C++ constructor aborts by exception. -/
def stoi (s : List Char) : Option Int :=
  let s1 := s.dropWhile (fun c => isSpaceC c)
  let sgn : Int := match s1 with
    | '-' :: _ => -1
    | _ => 1
  let s2 : List Char := match s1 with
    | '-' :: r => r
    | '+' :: r => r
    | _ => s1
  let ds := s2.takeWhile (fun c => c.isDigit)
  if ds.isEmpty then none
  else
    let v : Int := sgn * (digitsToNat ds : Nat)
    if v < -2147483648 ∨ 2147483647 < v then none else some v

/-- Split a character list at every `'.'`, keeping empty pieces. -/
def splitDots : List Char → List (List Char)
  | [] => [[]]
  | c :: r =>
    if c = '.' then [] :: splitDots r
    else
      match splitDots r with
      | [] => [[c]]
      | t :: ts => (c :: t) :: ts

/-- The tokens produced by the `while (std::getline(iss, octet, '.'))` loop:
    `getline` fails at end-of-stream before extracting anything, so a trailing
    `'.'` yields no empty final token and an empty stream yields no token. -/
def getlineTokens (s : List Char) : List (List Char) :=
  if s = [] then []
  else if (splitDots s).getLast? = some [] then (splitDots s).dropLast else splitDots s

/-- `octets_[i++] = value` on a partially-filled array. -/
def setOctet (a : IPv4Address) (i : Nat) (v : Nat) : IPv4Address :=
  if i = 0 then { a with o0 := v }
  else if i = 1 then { a with o1 := v }
  else if i = 2 then { a with o2 := v }
  else { a with o3 := v }

/-- The token loop of `IPv4Address::IPv4Address(std::string_view)`. -/
def parseGo : List (List Char) → Nat → IPv4Address → Except String IPv4Address
  | [], i, acc =>
    if i ≠ 4 then .error "Invalid IP address format: not enough octets" else .ok acc
  | t :: ts, i, acc =>
    if 4 ≤ i then .error "Invalid IP address format: too many octets"
    else
      match stoi t with
      | none => .error "stoi: no conversion or out of range"
      | some v =>
        if v < 0 ∨ 255 < v then .error "Invalid IP address octet value"
        else parseGo ts (i + 1) (setOctet acc i v.toNat)

/-- `IPv4Address::IPv4Address(std::string_view)`. Note: the constructor builds
    its `istringstream` from `address.data()`, i.e. from the NUL-terminated
    buffer starting at the view, so when it receives a prefix view of the
    analyzer input it actually scans the whole input (including any `/suffix`).
    Callers therefore pass the full character sequence of the C string. -/
def IPv4Address.parse (s : List Char) : Except String IPv4Address :=
  parseGo (getlineTokens s) 0 ⟨0, 0, 0, 0⟩

/-- `IPv4Address::IPv4Address(uint32_t)`. -/
def IPv4Address.ofUInt32 (n : Nat) : IPv4Address :=
  ⟨n >>> 24 &&& 0xFF, n >>> 16 &&& 0xFF, n >>> 8 &&& 0xFF, n &&& 0xFF⟩

/-- `IPv4Address::to_uint32`: `(o0 << 24) | (o1 << 16) | (o2 << 8) | o3`. -/
def IPv4Address.to_uint32 (a : IPv4Address) : Nat :=
  a.o0 <<< 24 ||| a.o1 <<< 16 ||| a.o2 <<< 8 ||| a.o3

/-- `octets_[k]` (k = 0..3). -/
def IPv4Address.octet (a : IPv4Address) : Nat → Nat
  | 0 => a.o0
  | 1 => a.o1
  | 2 => a.o2
  | _ => a.o3

/-- `IPAnalyzer`: one parsed `ip_` plus the `uint8_t cidr_`. -/
structure IPAnalyzer where
  ip : IPv4Address
  cidr : Nat
deriving DecidableEq, Repr

/-- A state the constructor can actually leave behind. -/
def IPAnalyzer.Valid (a : IPAnalyzer) : Prop := a.ip.Valid ∧ a.cidr ≤ 32

instance (a : IPAnalyzer) : Decidable a.Valid := by
  unfold IPAnalyzer.Valid; infer_instance

/-- Characters after the first `'/'` (`ip_cidr.substr(slash_pos + 1)`);
    `none` when the input has no `'/'` (`npos`). -/
def afterSlash : List Char → Option (List Char)
  | [] => none
  | c :: r => if c = '/' then some r else afterSlash r

/-- `IPAnalyzer::IPAnalyzer(std::string_view)`. The `ip_` member initializer
    parses the full input (see `IPv4Address.parse`); the body then requires a
    `'/'`, runs `std::stoi` on the suffix, truncates the result to `uint8_t`
    (mod 256) and only afterwards rejects values above 32. -/
def IPAnalyzer.construct (s : List Char) : Except String IPAnalyzer :=
  match IPv4Address.parse s with
  | .error e => .error e
  | .ok ip =>
    match afterSlash s with
    | none => .error "Invalid IP/CIDR format"
    | some suf =>
      match stoi suf with
      | none => .error "stoi: no conversion or out of range"
      | some v =>
        let c := (v % 256).toNat
        if 32 < c then .error "Invalid CIDR value" else .ok ⟨ip, c⟩

/-- `~m` on `uint32_t` (for `m < 2^32` this is the bitwise complement). -/
def not32 (m : Nat) : Nat := 0xFFFFFFFF - m

/-- `uint32_t >>`; a shift count of 32 or more is undefined behaviour in C++,
    modelled as the error branch. -/
def shr32 (x k : Nat) : Except String Nat :=
  if k ≤ 31 then .ok (x >>> k) else .error "UB: oversized shift"

/-- `uint32_t <<`, result wrapped mod 2^32. -/
def shl32 (x k : Nat) : Except String Nat :=
  if k ≤ 31 then .ok (x <<< k % 2 ^ 32) else .error "UB: oversized shift"

/-- `uint64_t <<`, result wrapped mod 2^64. -/
def shl64 (x k : Nat) : Except String Nat :=
  if k ≤ 63 then .ok (x <<< k % 2 ^ 64) else .error "UB: oversized shift"

/-- `IPAnalyzer::get_ip`. -/
def IPAnalyzer.get_ip (a : IPAnalyzer) : IPv4Address := a.ip

/-- `IPAnalyzer::get_network`: mask is `0xFFFFFFFF` at /32, else
    `~(0xFFFFFFFF >> cidr_)`, with the /0 case answered by parsing "0.0.0.0". -/
def IPAnalyzer.get_network (a : IPAnalyzer) : Except String IPv4Address :=
  if a.cidr = 0 then IPv4Address.parse "0.0.0.0".data
  else if a.cidr = 32 then .ok (IPv4Address.ofUInt32 (a.ip.to_uint32 &&& 0xFFFFFFFF))
  else
    match shr32 0xFFFFFFFF a.cidr with
    | .error e => .error e
    | .ok t => .ok (IPv4Address.ofUInt32 (a.ip.to_uint32 &&& not32 t))

/-- `IPAnalyzer::get_netmask`: `~0U << (32 - cidr_)` with special cases at /32
    (parse "255.255.255.255") and /0 (mask 0). -/
def IPAnalyzer.get_netmask (a : IPAnalyzer) : Except String IPv4Address :=
  if a.cidr = 32 then IPv4Address.parse "255.255.255.255".data
  else if a.cidr = 0 then .ok (IPv4Address.ofUInt32 0)
  else
    match shl32 0xFFFFFFFF (32 - a.cidr) with
    | .error e => .error e
    | .ok mask => .ok (IPv4Address.ofUInt32 mask)

/-- `IPAnalyzer::get_broadcast`: `ip | ~(~0U << (32 - cidr_))`, the /32 case
    returning `ip_` itself and the /0 case parsing "255.255.255.255". -/
def IPAnalyzer.get_broadcast (a : IPAnalyzer) : Except String IPv4Address :=
  if a.cidr = 32 then .ok a.ip
  else if a.cidr = 0 then IPv4Address.parse "255.255.255.255".data
  else
    match shl32 0xFFFFFFFF (32 - a.cidr) with
    | .error e => .error e
    | .ok mask => .ok (IPv4Address.ofUInt32 (a.ip.to_uint32 ||| not32 mask))

/-- `IPAnalyzer::get_host_range`: `{ip_, ip_}` at /32, otherwise
    `{network + 1, broadcast - 1}` in uint32 arithmetic. -/
def IPAnalyzer.get_host_range (a : IPAnalyzer) : Except String (IPv4Address × IPv4Address) :=
  if a.cidr = 32 then .ok (a.ip, a.ip)
  else
    match a.get_network, a.get_broadcast with
    | .ok n, .ok b =>
      .ok (IPv4Address.ofUInt32 ((n.to_uint32 + 1) % 2 ^ 32),
           IPv4Address.ofUInt32 ((b.to_uint32 + (2 ^ 32 - 1)) % 2 ^ 32))
    | .error e, _ => .error e
    | _, .error e => .error e

/-- `IPAnalyzer::get_num_hosts`: 1 at /32, 2 at /31, `0xFFFFFFFE` at /0, else
    `(1ULL << (32 - cidr_)) - 2` returned as `uint32_t`. -/
def IPAnalyzer.get_num_hosts (a : IPAnalyzer) : Except String Nat :=
  if a.cidr = 32 then .ok 1
  else if a.cidr = 31 then .ok 2
  else if a.cidr = 0 then .ok 0xFFFFFFFE
  else
    match shl64 1 (32 - a.cidr) with
    | .error e => .error e
    | .ok t => .ok ((t + (2 ^ 64 - 2)) % 2 ^ 64 % 2 ^ 32)

/-- `IPAnalyzer::is_private`: three closed uint32 range checks. -/
def IPAnalyzer.is_private (a : IPAnalyzer) : Bool :=
  let ip := a.ip.to_uint32
  (decide (0x0A000000 ≤ ip) && decide (ip ≤ 0x0AFFFFFF)) ||
  (decide (0xAC100000 ≤ ip) && decide (ip ≤ 0xAC1FFFFF)) ||
  (decide (0xC0A80000 ≤ ip) && decide (ip ≤ 0xC0A8FFFF))

/-- `IPAnalyzer::get_cidr`. -/
def IPAnalyzer.get_cidr (a : IPAnalyzer) : Nat := a.cidr

instance {ε α : Type} [DecidableEq ε] [DecidableEq α] : DecidableEq (Except ε α) := fun x y =>
  match x, y with
  | .ok a, .ok b =>
    if h : a = b then .isTrue (by rw [h]) else .isFalse (by intro hc; cases hc; exact h rfl)
  | .error a, .error b =>
    if h : a = b then .isTrue (by rw [h]) else .isFalse (by intro hc; cases hc; exact h rfl)
  | .ok _, .error _ => .isFalse (by intro hc; cases hc)
  | .error _, .ok _ => .isFalse (by intro hc; cases hc)

/- ------------------------------------------------------------------ -/
/- Arithmetic facts about the embedded bit operations.                 -/
/- ------------------------------------------------------------------ -/

theorem or_eq_add_of_lt {a b k : Nat} (h : b < 2 ^ k) : a * 2 ^ k ||| b = a * 2 ^ k + b := by
  rw [Nat.mul_comm]
  exact (Nat.mul_add_lt_is_or h a).symm

theorem and_255_eq_mod (x : Nat) : x &&& 0xFF = x % 256 := by
  have h := Nat.and_pow_two_sub_one_eq_mod x 8
  norm_num at h
  omega

theorem left_le_or (a b : Nat) : a ≤ a ||| b :=
  Nat.le_of_testBit fun i h => by simp [Nat.testBit_or, h]

/-- For in-range octets, `to_uint32` is the big-endian value of the 4 bytes. -/
theorem IPv4Address.to_uint32_eq (a : IPv4Address) (h : a.Valid) :
    a.to_uint32 = ((a.o0 * 256 + a.o1) * 256 + a.o2) * 256 + a.o3 := by
  obtain ⟨h0, h1, h2, h3⟩ := h
  show a.o0 <<< 24 ||| a.o1 <<< 16 ||| a.o2 <<< 8 ||| a.o3 = _
  rw [Nat.shiftLeft_eq, Nat.shiftLeft_eq, Nat.shiftLeft_eq,
    or_eq_add_of_lt (k := 24) (by omega),
    show a.o0 * 2 ^ 24 + a.o1 * 2 ^ 16 = (a.o0 * 256 + a.o1) * 2 ^ 16 by ring,
    or_eq_add_of_lt (k := 16) (by omega),
    show (a.o0 * 256 + a.o1) * 2 ^ 16 + a.o2 * 2 ^ 8 =
      ((a.o0 * 256 + a.o1) * 256 + a.o2) * 2 ^ 8 by ring,
    or_eq_add_of_lt (k := 8) (by omega)]
  ring

theorem IPv4Address.to_uint32_lt (a : IPv4Address) (h : a.Valid) : a.to_uint32 < 2 ^ 32 := by
  have e := a.to_uint32_eq h
  obtain ⟨h0, h1, h2, h3⟩ := h
  omega

theorem IPv4Address.ofUInt32_valid (n : Nat) : (IPv4Address.ofUInt32 n).Valid := by
  unfold IPv4Address.ofUInt32 IPv4Address.Valid
  simp only [and_255_eq_mod]
  omega

/-- Round trip: rebuilding an address from a uint32 value below 2^32 and
    reading it back gives the same value. -/
theorem IPv4Address.ofUInt32_to_uint32 (n : Nat) (h : n < 2 ^ 32) :
    (IPv4Address.ofUInt32 n).to_uint32 = n := by
  rw [IPv4Address.to_uint32_eq _ (IPv4Address.ofUInt32_valid n)]
  simp only [IPv4Address.ofUInt32, and_255_eq_mod, Nat.shiftRight_eq_div_pow]
  omega

/- ------------------------------------------------------------------ -/
/- What the constructors can produce.                                  -/
/- ------------------------------------------------------------------ -/

theorem setOctet_valid (a : IPv4Address) (i v : Nat) (ha : a.Valid) (hv : v < 256) :
    (setOctet a i v).Valid := by
  obtain ⟨h0, h1, h2, h3⟩ := ha
  unfold setOctet
  split_ifs <;> exact ⟨by simp_all, by simp_all, by simp_all, by simp_all⟩

theorem parseGo_valid (ts : List (List Char)) :
    ∀ i acc a, acc.Valid → parseGo ts i acc = .ok a → a.Valid := by
  induction ts with
  | nil =>
    intro i acc a hacc h
    unfold parseGo at h
    by_cases h4 : i ≠ 4
    · rw [if_pos h4] at h
      exact Except.noConfusion h
    · rw [if_neg h4] at h
      cases h
      exact hacc
  | cons t ts ih =>
    intro i acc a hacc h
    unfold parseGo at h
    by_cases h4 : 4 ≤ i
    · rw [if_pos h4] at h
      exact Except.noConfusion h
    · rw [if_neg h4] at h
      cases hst : stoi t with
      | none =>
        simp only [hst] at h
        exact Except.noConfusion h
      | some v =>
        simp only [hst] at h
        by_cases hv : v < 0 ∨ 255 < v
        · rw [if_pos hv] at h
          exact Except.noConfusion h
        · rw [if_neg hv] at h
          exact ih _ _ _ (setOctet_valid acc i v.toNat hacc (by omega)) h

theorem IPv4Address.parse_valid (s : List Char) (a : IPv4Address)
    (h : IPv4Address.parse s = .ok a) : a.Valid :=
  parseGo_valid (getlineTokens s) 0 ⟨0, 0, 0, 0⟩ a (by decide) h

/-- Anything the IPAnalyzer constructor returns satisfies the state invariant:
    octets below 256 and prefix length at most 32. -/
theorem IPAnalyzer.construct_valid (s : List Char) (a : IPAnalyzer)
    (h : IPAnalyzer.construct s = .ok a) : a.Valid := by
  unfold IPAnalyzer.construct at h
  cases hp : IPv4Address.parse s with
  | error e =>
    simp only [hp] at h
    exact Except.noConfusion h
  | ok ip =>
    simp only [hp] at h
    cases hs : afterSlash s with
    | none =>
      simp only [hs] at h
      exact Except.noConfusion h
    | some suf =>
      simp only [hs] at h
      cases hst : stoi suf with
      | none =>
        simp only [hst] at h
        exact Except.noConfusion h
      | some v =>
        simp only [hst] at h
        by_cases hc : 32 < (v % 256).toNat
        · rw [if_pos hc] at h
          exact Except.noConfusion h
        · rw [if_neg hc] at h
          cases h
          refine ⟨IPv4Address.parse_valid s ip hp, ?_⟩
          show (v % 256).toNat ≤ 32
          omega

/-- `get_num_hosts` reads only the prefix length; its body as a function of
    `cidr_` alone (definitionally equal to the method). -/
def numHostsModel (c : Nat) : Except String Nat :=
  if c = 32 then .ok 1
  else if c = 31 then .ok 2
  else if c = 0 then .ok 0xFFFFFFFE
  else
    match shl64 1 (32 - c) with
    | .error e => .error e
    | .ok t => .ok ((t + (2 ^ 64 - 2)) % 2 ^ 64 % 2 ^ 32)

theorem numHostsModel_eq (c : Nat) (h : c ≤ 32) :
    numHostsModel c = .ok (if c = 32 then 1 else if c = 31 then 2 else 2 ^ (32 - c) - 2) := by
  interval_cases c <;> rfl

/-- Normal form of `get_num_hosts` for any in-range prefix length. -/
theorem get_num_hosts_eq (ip : IPv4Address) (c : Nat) (h : c ≤ 32) :
    IPAnalyzer.get_num_hosts ⟨ip, c⟩ =
      .ok (if c = 32 then 1 else if c = 31 then 2 else 2 ^ (32 - c) - 2) :=
  numHostsModel_eq c h

/- ------------------------------------------------------------------ -/
/- Claims.                                                             -/
/- ------------------------------------------------------------------ -/

/-- C1: evidence against the claimed `{31, 32}` collapse of the host range.
    On 10.0.0.0/31 the code still applies the increment and decrement: the
    network address is 10.0.0.0 and the broadcast address is 10.0.0.1, but
    `get_host_range` returns the inverted pair (10.0.0.1, 10.0.0.0) =
    (network + 1, broadcast - 1), even though `get_num_hosts` counts the
    two collapsed hosts the claim describes. Only `p = 32` collapses. -/
theorem claim_C1_host_range_31_not_collapsed :
    IPAnalyzer.construct "10.0.0.0/31".data = .ok ⟨⟨10, 0, 0, 0⟩, 31⟩ ∧
    IPAnalyzer.get_network ⟨⟨10, 0, 0, 0⟩, 31⟩ = .ok ⟨10, 0, 0, 0⟩ ∧
    IPAnalyzer.get_broadcast ⟨⟨10, 0, 0, 0⟩, 31⟩ = .ok ⟨10, 0, 0, 1⟩ ∧
    IPAnalyzer.get_host_range ⟨⟨10, 0, 0, 0⟩, 31⟩ = .ok (⟨10, 0, 0, 1⟩, ⟨10, 0, 0, 0⟩) ∧
    IPAnalyzer.get_num_hosts ⟨⟨10, 0, 0, 0⟩, 31⟩ = .ok 2 := by
  decide

/-- C2 counterexample: a bare valid dotted quad with no '/' does not
    construct with an effective prefix of 32 - construction fails. -/
theorem claim_C2_counterexample :
    IPAnalyzer.construct "192.168.0.1".data = .error "Invalid IP/CIDR format" := by
  decide

theorem afterSlash_eq_none (s : List Char) (h : '/' ∉ s) : afterSlash s = none := by
  induction s with
  | nil => rfl
  | cons c r ih =>
    have hc : ¬c = '/' := fun e => h (by rw [e]; exact List.mem_cons_self '/' r)
    unfold afterSlash
    rw [if_neg hc]
    exact ih fun m => h (List.mem_cons_of_mem c m)

/-- C2 amended: an input that parses as an IPv4 address but contains no '/'
    is rejected by the analyzer constructor with "Invalid IP/CIDR format";
    a bare address never constructs. -/
theorem claim_C2_amended (s : List Char) (a0 : IPv4Address)
    (hns : '/' ∉ s) (hp : IPv4Address.parse s = .ok a0) :
    IPAnalyzer.construct s = .error "Invalid IP/CIDR format" := by
  unfold IPAnalyzer.construct
  simp only [hp, afterSlash_eq_none s hns]

/-- Witness for the amended C2 at the concrete input "192.168.0.1". -/
theorem claim_C2_amended_witness :
    '/' ∉ "192.168.0.1".data ∧
    IPv4Address.parse "192.168.0.1".data = .ok ⟨192, 168, 0, 1⟩ ∧
    IPAnalyzer.construct "192.168.0.1".data = .error "Invalid IP/CIDR format" :=
  ⟨by decide, by decide,
    claim_C2_amended "192.168.0.1".data ⟨192, 168, 0, 1⟩ (by decide) (by decide)⟩

/-- C3: evidence that an over-wide prefix suffix is not always rejected.
    `static_cast<uint8_t>` truncates the stoi result mod 256 before the
    `> 32` check, so "/256" is accepted as prefix 0 and "/288" as prefix 32,
    both claimed to fail with a FormatError; the negative suffix -224
    (which is 32 mod 256) is accepted as well. -/
theorem claim_C3_prefix_truncation :
    IPAnalyzer.construct "192.168.0.1/256".data = .ok ⟨⟨192, 168, 0, 1⟩, 0⟩ ∧
    IPAnalyzer.construct "192.168.0.1/288".data = .ok ⟨⟨192, 168, 0, 1⟩, 32⟩ ∧
    IPAnalyzer.construct "192.168.0.1/-224".data = .ok ⟨⟨192, 168, 0, 1⟩, 32⟩ ∧
    IPAnalyzer.construct "192.168.0.1/33".data = .error "Invalid CIDR value" := by
  decide

/-- C4 counterexample: "1a.2.3.4" has a non-numeric character inside an
    octet group, yet parsing succeeds (std::stoi reads the leading "1" and
    ignores the rest), contradicting the claimed exact characterization. -/
theorem claim_C4_counterexample :
    IPv4Address.parse "1a.2.3.4".data = .ok ⟨1, 2, 3, 4⟩ ∧
    IPv4Address.parse "1.2.3.4.".data = .ok ⟨1, 2, 3, 4⟩ := by
  decide

/-- C5: the number of hosts is 1 at /32, 2 at /31 and 2^(32-p) - 2 otherwise
    (at /0 the hard-coded 0xFFFFFFFE equals 2^32 - 2), in exact arithmetic. -/
theorem claim_C5_num_hosts (a : IPAnalyzer) (h : a.cidr ≤ 32) :
    a.get_num_hosts =
      .ok (if a.cidr = 32 then 1 else if a.cidr = 31 then 2 else 2 ^ (32 - a.cidr) - 2) := by
  rw [show a.get_num_hosts = numHostsModel a.cidr from rfl]
  exact numHostsModel_eq a.cidr h

/-- Witness for C5 at 192.168.0.1/24: 254 hosts. -/
theorem claim_C5_num_hosts_witness :
    (IPAnalyzer.mk ⟨192, 168, 0, 1⟩ 24).cidr ≤ 32 ∧
    (IPAnalyzer.mk ⟨192, 168, 0, 1⟩ 24).get_num_hosts = .ok 254 := by
  refine ⟨by decide, ?_⟩
  rw [claim_C5_num_hosts (IPAnalyzer.mk ⟨192, 168, 0, 1⟩ 24) (by decide)]
  decide

/-- The byte pattern the spec states for the netmask: the first `p / 8` bytes
    are 0xFF, then (when `p % 8 > 0`) one byte with exactly the high-order
    `p % 8` bits set, then zero bytes. Stated from the spec wording, to be
    compared with the code's `get_netmask`. -/
def netmaskByteSpec (p k : Nat) : Nat :=
  if k < p / 8 then 0xFF
  else if k = p / 8 ∧ 0 < p % 8 then 0xFF <<< (8 - p % 8) % 256
  else 0

/-- All four spec netmask bytes as an address; depends only on `p`. -/
def netmaskAddrSpec (p : Nat) : IPv4Address :=
  ⟨netmaskByteSpec p 0, netmaskByteSpec p 1, netmaskByteSpec p 2, netmaskByteSpec p 3⟩

/-- `get_netmask` reads only the prefix length; its body as a function of
    `cidr_` alone (definitionally equal to the method). -/
def netmaskModel (c : Nat) : Except String IPv4Address :=
  if c = 32 then IPv4Address.parse "255.255.255.255".data
  else if c = 0 then .ok (IPv4Address.ofUInt32 0)
  else
    match shl32 0xFFFFFFFF (32 - c) with
    | .error e => .error e
    | .ok mask => .ok (IPv4Address.ofUInt32 mask)

theorem netmaskModel_eq (c : Nat) (h : c ≤ 32) :
    netmaskModel c = .ok (netmaskAddrSpec c) := by
  interval_cases c <;> rfl

/-- C6: for every valid analyzer the netmask is exactly the spec's byte
    pattern - leading `cidr` one bits - and depends only on the prefix
    length, never on the stored address. -/
theorem claim_C6_netmask (a : IPAnalyzer) (h : a.cidr ≤ 32) :
    a.get_netmask = .ok (netmaskAddrSpec a.cidr) := by
  rw [show a.get_netmask = netmaskModel a.cidr from rfl]
  exact netmaskModel_eq a.cidr h

/-- Witness for C6 at 10.20.30.40/20: netmask 255.255.240.0. -/
theorem claim_C6_netmask_witness :
    (IPAnalyzer.mk ⟨10, 20, 30, 40⟩ 20).cidr ≤ 32 ∧
    (IPAnalyzer.mk ⟨10, 20, 30, 40⟩ 20).get_netmask = .ok ⟨255, 255, 240, 0⟩ := by
  refine ⟨by decide, ?_⟩
  rw [claim_C6_netmask (IPAnalyzer.mk ⟨10, 20, 30, 40⟩ 20) (by decide)]
  decide

/-- C7: `is_private` is true exactly when the stored address lies in
    10.0.0.0/8, 172.16.0.0/12 or 192.168.0.0/16 (top 8 / 12 / 16 bits equal
    to 0x0A / 0xAC1 / 0xC0A8), for every prefix length the analyzer holds. -/
theorem claim_C7_is_private (a : IPAnalyzer) (h : a.ip.Valid) :
    a.is_private = true ↔
      (a.ip.to_uint32 / 2 ^ 24 = 0x0A ∨ a.ip.to_uint32 / 2 ^ 20 = 0xAC1 ∨
       a.ip.to_uint32 / 2 ^ 16 = 0xC0A8) := by
  have hlt : a.ip.to_uint32 < 2 ^ 32 := a.ip.to_uint32_lt h
  unfold IPAnalyzer.is_private
  simp only [Bool.or_eq_true, Bool.and_eq_true, decide_eq_true_eq]
  omega

/-- Witness for C7 at 172.20.1.2 (inside 172.16.0.0/12). -/
theorem claim_C7_is_private_witness :
    (IPAnalyzer.mk ⟨172, 20, 1, 2⟩ 24).ip.Valid ∧
    ((IPAnalyzer.mk ⟨172, 20, 1, 2⟩ 24).is_private = true ↔
      ((IPAnalyzer.mk ⟨172, 20, 1, 2⟩ 24).ip.to_uint32 / 2 ^ 24 = 0x0A ∨
       (IPAnalyzer.mk ⟨172, 20, 1, 2⟩ 24).ip.to_uint32 / 2 ^ 20 = 0xAC1 ∨
       (IPAnalyzer.mk ⟨172, 20, 1, 2⟩ 24).ip.to_uint32 / 2 ^ 16 = 0xC0A8)) :=
  ⟨by decide, claim_C7_is_private (IPAnalyzer.mk ⟨172, 20, 1, 2⟩ 24) (by decide)⟩

/-- `get_network` as a function of the stored uint32 value and the prefix
    length (definitionally equal to the method). -/
def networkModel (x c : Nat) : Except String IPv4Address :=
  if c = 0 then IPv4Address.parse "0.0.0.0".data
  else if c = 32 then .ok (IPv4Address.ofUInt32 (x &&& 0xFFFFFFFF))
  else
    match shr32 0xFFFFFFFF c with
    | .error e => .error e
    | .ok t => .ok (IPv4Address.ofUInt32 (x &&& not32 t))

theorem get_network_model (a : IPAnalyzer) :
    a.get_network = networkModel a.ip.to_uint32 a.cidr := rfl

/-- `get_broadcast` as a function of the stored address and the prefix
    length (definitionally equal to the method). -/
def broadcastModel (ip : IPv4Address) (c : Nat) : Except String IPv4Address :=
  if c = 32 then .ok ip
  else if c = 0 then IPv4Address.parse "255.255.255.255".data
  else
    match shl32 0xFFFFFFFF (32 - c) with
    | .error e => .error e
    | .ok mask => .ok (IPv4Address.ofUInt32 (ip.to_uint32 ||| not32 mask))

theorem get_broadcast_model (a : IPAnalyzer) :
    a.get_broadcast = broadcastModel a.ip a.cidr := rfl

theorem networkModel_mid (x c : Nat) (h0 : c ≠ 0) (h32 : c ≠ 32) (hle : c ≤ 32) :
    networkModel x c = .ok (IPv4Address.ofUInt32 (x &&& not32 (0xFFFFFFFF >>> c))) := by
  unfold networkModel shr32
  rw [if_neg h0, if_neg h32, if_pos (show c ≤ 31 by omega)]

theorem broadcastModel_mid (ip : IPv4Address) (c : Nat) (h0 : c ≠ 0) (h32 : c ≠ 32)
    (hle : c ≤ 32) :
    broadcastModel ip c =
      .ok (IPv4Address.ofUInt32 (ip.to_uint32 ||| not32 (0xFFFFFFFF <<< (32 - c) % 2 ^ 32))) := by
  unfold broadcastModel shl32
  rw [if_neg h32, if_neg h0, if_pos (show 32 - c ≤ 31 by omega)]

theorem get_host_range_ok (a : IPAnalyzer) (hn : ∃ x, a.get_network = .ok x)
    (hb : ∃ x, a.get_broadcast = .ok x) : ∃ x, a.get_host_range = .ok x := by
  by_cases h32 : a.cidr = 32
  · exact ⟨_, by unfold IPAnalyzer.get_host_range; rw [if_pos h32]⟩
  · obtain ⟨n, hn⟩ := hn
    obtain ⟨b, hb⟩ := hb
    refine ⟨(IPv4Address.ofUInt32 ((n.to_uint32 + 1) % 2 ^ 32),
             IPv4Address.ofUInt32 ((b.to_uint32 + (2 ^ 32 - 1)) % 2 ^ 32)), ?_⟩
    unfold IPAnalyzer.get_host_range
    rw [if_neg h32]
    simp only [hn, hb]

/-- C8: on any successfully constructed analyzer, every derivation reaches
    its `.ok` result: no parse error, no undefined shift, no error branch is
    reachable (`get_ip`, `is_private` and `get_cidr` are total by type). -/
theorem claim_C8_derivations_total (s : List Char) (a : IPAnalyzer)
    (h : IPAnalyzer.construct s = .ok a) :
    (∃ x, a.get_network = .ok x) ∧ (∃ x, a.get_netmask = .ok x) ∧
    (∃ x, a.get_broadcast = .ok x) ∧ (∃ x, a.get_host_range = .ok x) ∧
    (∃ x, a.get_num_hosts = .ok x) := by
  obtain ⟨hip, hc⟩ := IPAnalyzer.construct_valid s a h
  have hn : ∃ x, a.get_network = .ok x := by
    rw [get_network_model]
    by_cases h0 : a.cidr = 0
    · rw [h0]; exact ⟨_, rfl⟩
    · by_cases h32 : a.cidr = 32
      · rw [h32]; exact ⟨_, rfl⟩
      · exact ⟨_, networkModel_mid _ _ h0 h32 hc⟩
  have hm : ∃ x, a.get_netmask = .ok x :=
    ⟨_, by rw [show a.get_netmask = netmaskModel a.cidr from rfl]; exact netmaskModel_eq a.cidr hc⟩
  have hb : ∃ x, a.get_broadcast = .ok x := by
    rw [get_broadcast_model]
    by_cases h32 : a.cidr = 32
    · rw [h32]; exact ⟨_, rfl⟩
    · by_cases h0 : a.cidr = 0
      · rw [h0]; exact ⟨_, rfl⟩
      · exact ⟨_, broadcastModel_mid _ _ h0 h32 hc⟩
  have hh : ∃ x, a.get_num_hosts = .ok x :=
    ⟨_, by rw [show a.get_num_hosts = numHostsModel a.cidr from rfl]
           exact numHostsModel_eq a.cidr hc⟩
  exact ⟨hn, hm, hb, get_host_range_ok a hn hb, hh⟩

/-- Witness for C8 at the constructed input "192.168.0.1/24". -/
theorem claim_C8_derivations_total_witness :
    IPAnalyzer.construct "192.168.0.1/24".data = .ok ⟨⟨192, 168, 0, 1⟩, 24⟩ ∧
    ((∃ x, IPAnalyzer.get_network ⟨⟨192, 168, 0, 1⟩, 24⟩ = .ok x) ∧
     (∃ x, IPAnalyzer.get_netmask ⟨⟨192, 168, 0, 1⟩, 24⟩ = .ok x) ∧
     (∃ x, IPAnalyzer.get_broadcast ⟨⟨192, 168, 0, 1⟩, 24⟩ = .ok x) ∧
     (∃ x, IPAnalyzer.get_host_range ⟨⟨192, 168, 0, 1⟩, 24⟩ = .ok x) ∧
     (∃ x, IPAnalyzer.get_num_hosts ⟨⟨192, 168, 0, 1⟩, 24⟩ = .ok x)) :=
  ⟨by decide, claim_C8_derivations_total "192.168.0.1/24".data ⟨⟨192, 168, 0, 1⟩, 24⟩ (by decide)⟩

theorem not32_lt (m : Nat) : not32 m < 2 ^ 32 :=
  lt_of_le_of_lt (Nat.sub_le _ _) (by norm_num)

/-- C10: the derived addresses are ordered - network at most the stored
    address, stored address at most broadcast - on every valid analyzer. -/
theorem claim_C10_ip_in_interval (a : IPAnalyzer) (h : a.Valid) :
    ∃ n b, a.get_network = .ok n ∧ a.get_broadcast = .ok b ∧
      n.to_uint32 ≤ a.get_ip.to_uint32 ∧ a.get_ip.to_uint32 ≤ b.to_uint32 := by
  obtain ⟨hip, hc⟩ := h
  have hx : a.ip.to_uint32 < 2 ^ 32 := a.ip.to_uint32_lt hip
  simp only [get_network_model, get_broadcast_model, IPAnalyzer.get_ip]
  by_cases h0 : a.cidr = 0
  · simp only [h0]
    refine ⟨⟨0, 0, 0, 0⟩, ⟨255, 255, 255, 255⟩, rfl, rfl, ?_, ?_⟩
    · have e : (⟨0, 0, 0, 0⟩ : IPv4Address).to_uint32 = 0 := rfl
      omega
    · have e : (⟨255, 255, 255, 255⟩ : IPv4Address).to_uint32 = 4294967295 := rfl
      omega
  · by_cases h32 : a.cidr = 32
    · simp only [h32]
      refine ⟨_, _, rfl, rfl, ?_, le_refl _⟩
      rw [IPv4Address.ofUInt32_to_uint32 _ (Nat.and_lt_two_pow _ (by norm_num))]
      exact Nat.and_le_left
    · refine ⟨_, _, networkModel_mid _ _ h0 h32 hc, broadcastModel_mid _ _ h0 h32 hc, ?_, ?_⟩
      · rw [IPv4Address.ofUInt32_to_uint32 _ (Nat.and_lt_two_pow _ (not32_lt _))]
        exact Nat.and_le_left
      · rw [IPv4Address.ofUInt32_to_uint32 _ (Nat.or_lt_two_pow hx (not32_lt _))]
        exact left_le_or _ _

/-- Witness for C10 at 192.168.0.130/25. -/
theorem claim_C10_ip_in_interval_witness :
    (IPAnalyzer.mk ⟨192, 168, 0, 130⟩ 25).Valid ∧
    (∃ n b, (IPAnalyzer.mk ⟨192, 168, 0, 130⟩ 25).get_network = .ok n ∧
      (IPAnalyzer.mk ⟨192, 168, 0, 130⟩ 25).get_broadcast = .ok b ∧
      n.to_uint32 ≤ (IPAnalyzer.mk ⟨192, 168, 0, 130⟩ 25).get_ip.to_uint32 ∧
      (IPAnalyzer.mk ⟨192, 168, 0, 130⟩ 25).get_ip.to_uint32 ≤ b.to_uint32) :=
  ⟨by decide, claim_C10_ip_in_interval (IPAnalyzer.mk ⟨192, 168, 0, 130⟩ 25) (by decide)⟩

/-- The host-count formula is antitone in the prefix length, with equality
    exactly at the pair p = 30, q = 31 produced by the /31 special case. -/
theorem numHosts_formula_mono :
    ∀ q, q ≤ 32 → ∀ p, p < q →
      ((if q = 32 then 1 else if q = 31 then 2 else 2 ^ (32 - q) - 2) ≤
        (if p = 32 then 1 else if p = 31 then 2 else 2 ^ (32 - p) - 2) ∧
       ((if q = 32 then 1 else if q = 31 then 2 else 2 ^ (32 - q) - 2) =
         (if p = 32 then 1 else if p = 31 then 2 else 2 ^ (32 - p) - 2) ↔
           p = 30 ∧ q = 31)) := by
  decide

/-- C9: for a fixed address, the host count never increases as the prefix
    length grows, and it is strictly smaller except at the single equality
    the `{31, 32}` boundary collapse creates: p = 30 versus q = 31 (both 2). -/
theorem claim_C9_host_count_antitone (ip : IPv4Address) (p q : Nat)
    (hpq : p < q) (hq : q ≤ 32) :
    ∃ hp hq', IPAnalyzer.get_num_hosts ⟨ip, p⟩ = .ok hp ∧
      IPAnalyzer.get_num_hosts ⟨ip, q⟩ = .ok hq' ∧
      hq' ≤ hp ∧ (hq' = hp ↔ p = 30 ∧ q = 31) := by
  refine ⟨_, _, get_num_hosts_eq ip p (by omega), get_num_hosts_eq ip q hq, ?_, ?_⟩
  · exact (numHosts_formula_mono q hq p hpq).1
  · exact (numHosts_formula_mono q hq p hpq).2

/-- Witness for C9 at ip 10.0.0.1, p = 8, q = 24. -/
theorem claim_C9_host_count_antitone_witness :
    (8 : Nat) < 24 ∧ (24 : Nat) ≤ 32 ∧
    (∃ hp hq', IPAnalyzer.get_num_hosts ⟨⟨10, 0, 0, 1⟩, 8⟩ = .ok hp ∧
      IPAnalyzer.get_num_hosts ⟨⟨10, 0, 0, 1⟩, 24⟩ = .ok hq' ∧
      hq' ≤ hp ∧ (hq' = hp ↔ (8 : Nat) = 30 ∧ (24 : Nat) = 31)) :=
  ⟨by decide, by decide,
    claim_C9_host_count_antitone ⟨10, 0, 0, 1⟩ 8 24 (by decide) (by decide)⟩

/-- An octet token the constructor loop accepts: `std::stoi` succeeds on it
    and the resulting value lies in [0, 255]. -/
def octetOk (t : List Char) : Prop := ∃ v : Int, stoi t = some v ∧ 0 ≤ v ∧ v ≤ 255

theorem parseGo_ok_iff (ts : List (List Char)) :
    ∀ i acc, i ≤ 4 →
      ((∃ a, parseGo ts i acc = .ok a) ↔ (ts.length = 4 - i ∧ ∀ t ∈ ts, octetOk t)) := by
  induction ts with
  | nil =>
    intro i acc hi
    unfold parseGo
    by_cases h4 : i = 4
    · subst h4
      rw [if_neg (show ¬(4 : Nat) ≠ 4 by omega)]
      exact ⟨fun _ => ⟨by simp, by simp⟩, fun _ => ⟨acc, rfl⟩⟩
    · rw [if_pos (show i ≠ 4 by omega)]
      constructor
      · rintro ⟨a, ha⟩
        exact Except.noConfusion ha
      · rintro ⟨hlen, -⟩
        exfalso
        simp only [List.length_nil] at hlen
        omega
  | cons t ts ih =>
    intro i acc hi
    unfold parseGo
    by_cases h4 : 4 ≤ i
    · rw [if_pos h4]
      constructor
      · rintro ⟨a, ha⟩
        exact Except.noConfusion ha
      · rintro ⟨hlen, -⟩
        exfalso
        simp only [List.length_cons] at hlen
        omega
    · rw [if_neg h4]
      cases hst : stoi t with
      | none =>
        constructor
        · rintro ⟨a, ha⟩
          exact Except.noConfusion ha
        · rintro ⟨-, hall⟩
          obtain ⟨v, hv, -, -⟩ := hall t (List.mem_cons_self t ts)
          rw [hst] at hv
          exact Option.noConfusion hv
      | some v =>
        show (∃ a, (if v < 0 ∨ 255 < v then Except.error "Invalid IP address octet value"
            else parseGo ts (i + 1) (setOctet acc i v.toNat)) = .ok a) ↔ _
        by_cases hv : v < 0 ∨ 255 < v
        · rw [if_pos hv]
          constructor
          · rintro ⟨a, ha⟩
            exact Except.noConfusion ha
          · rintro ⟨-, hall⟩
            obtain ⟨v', hv', h0, h255⟩ := hall t (List.mem_cons_self t ts)
            rw [hst] at hv'
            cases hv'
            omega
        · rw [if_neg hv]
          rw [ih (i + 1) (setOctet acc i v.toNat) (by omega)]
          constructor
          · rintro ⟨hlen, hall⟩
            refine ⟨by simp only [List.length_cons]; omega, ?_⟩
            intro u hu
            rcases List.mem_cons.mp hu with h | h
            · subst h
              exact ⟨v, hst, by omega, by omega⟩
            · exact hall u h
          · rintro ⟨hlen, hall⟩
            refine ⟨by simp only [List.length_cons] at hlen; omega,
              fun u hu => hall u (List.mem_cons_of_mem t hu)⟩

/-- C4 amended: parsing succeeds exactly when the getline tokenization (a
    trailing '.' produces no empty final group) yields exactly four groups
    and each group is accepted by std::stoi - optional leading whitespace
    and sign, at least one leading digit, trailing characters ignored - with
    a value in [0, 255]. Groups containing non-numeric characters after the
    digits (or a sign, or leading whitespace) are accepted, unlike claimed. -/
theorem claim_C4_amended (s : List Char) :
    (∃ a, IPv4Address.parse s = .ok a) ↔
      ((getlineTokens s).length = 4 ∧ ∀ t ∈ getlineTokens s, octetOk t) := by
  have h := parseGo_ok_iff (getlineTokens s) 0 ⟨0, 0, 0, 0⟩ (by omega)
  simpa using h
